import Mathlib

/-!
Verification of the DENWATUNE tone engine (`src/app.js`).

The file embeds the tone-synthesis and playback-scheduling engine of the
source shallowly in Lean:

* `getFrequenciesForKey` is the pure frequency lookup (`ToneEngine.getFrequenciesForKey`);
* `EngineState` mirrors the mutable fields of the `ToneEngine` class, plus a
  ghost list `aliveOscs` of the backend oscillators that have been created,
  started and not yet stopped (each tagged with the generation counter
  `toneGen` of the `startToneForKey` call that created it);
* `startToneForKey`, `stopTone`, `setVolume`, `setDialPreset`,
  `ensureContext` and the cadence toggle are state-passing translations of
  the corresponding methods;
* the sequence player (`cancelSequencePlayback`, `scheduleNextFromBuffer`,
  `startSequencePlaybackFromText`) is embedded with an explicit event list
  recording key starts, key ends and the idle report, and timer callbacks
  are fired explicitly (`fireInner`, `runDrain`), reflecting the
  single-threaded timer-driven execution of the source.
-/

set_option autoImplicit false

/-- Regional preset for the dial tone (`this.dialPreset`, `'us' | 'jp'`). -/
inductive Preset where
  | us
  | jp
deriving DecidableEq, Repr

/-- Cadence record `{ onMs, offMs }` as returned by `getFrequenciesForKey('/')`. -/
structure Cadence where
  onMs : Nat
  offMs : Nat
deriving DecidableEq, Repr

/-- Frequency spec `{ a, b, isContinuous, cadence }` returned by
`ToneEngine.getFrequenciesForKey`. -/
structure ToneSpec where
  a : Nat
  b : Option Nat
  isContinuous : Bool
  cadence : Option Cadence
deriving DecidableEq, Repr

/-- The `dtmfLow` object literal of `getFrequenciesForKey` (app.js line 57):
low-group frequency per key, `none` for a key absent from the object. -/
def dtmfLow (k : Char) : Option Nat :=
  if k = '1' then some 697 else if k = '2' then some 697 else if k = '3' then some 697
  else if k = '4' then some 770 else if k = '5' then some 770 else if k = '6' then some 770
  else if k = '7' then some 852 else if k = '8' then some 852 else if k = '9' then some 852
  else if k = '*' then some 941 else if k = '0' then some 941 else if k = '#' then some 941
  else none

/-- The `dtmfHigh` object literal of `getFrequenciesForKey` (app.js line 58). -/
def dtmfHigh (k : Char) : Option Nat :=
  if k = '1' then some 1209 else if k = '2' then some 1336 else if k = '3' then some 1477
  else if k = '4' then some 1209 else if k = '5' then some 1336 else if k = '6' then some 1477
  else if k = '7' then some 1209 else if k = '8' then some 1336 else if k = '9' then some 1477
  else if k = '*' then some 1209 else if k = '0' then some 1336 else if k = '#' then some 1477
  else none

/-- `ToneEngine.getFrequenciesForKey` (app.js lines 56-77).  The `'*'` branch
reads `this.dialPreset`, so the method is embedded as a pure function of the
preset and the key.  A key with no low or high entry yields `none`
(`if (!low || !high) return null`; all table frequencies are nonzero, so JS
falsiness coincides with absence). -/
def getFrequenciesForKey (preset : Preset) (key : Char) : Option ToneSpec :=
  if key = '*' then
    if preset = Preset.jp then
      some { a := 400, b := none, isContinuous := true, cadence := none }
    else
      some { a := 350, b := some 440, isContinuous := true, cadence := none }
  else if key = '/' then
    some { a := 480, b := some 620, isContinuous := false,
           cadence := some { onMs := 250, offMs := 250 } }
  else
    match dtmfLow key, dtmfHigh key with
    | some low, some high =>
        some { a := low, b := some high, isContinuous := false, cadence := none }
    | _, _ => none

/-- The eleven DTMF keys of claim C1: the digits and `'#'`. -/
def dtmfKeys : List Char := ['0', '1', '2', '3', '4', '5', '6', '7', '8', '9', '#']

/-- The `validKeys` set of the source (app.js line 361): the keys accepted by
the keyboard handler and the sequence player.  It coincides with the domain
of `getFrequenciesForKey`. -/
def validKeys : List Char :=
  ['0', '1', '2', '3', '4', '5', '6', '7', '8', '9', '#', '*', '/']

/-- Boolean form of `validKeys.has(k)`. -/
def isValidKey (k : Char) : Bool := decide (k ∈ validKeys)

/-- The (low, high) frequency pair of a looked-up key, used to state pairwise
distinctness of the DTMF combinations. -/
def freqPair (preset : Preset) (k : Char) : Option (Nat × Option Nat) :=
  (getFrequenciesForKey preset k).map (fun t => (t.a, t.b))

/-- C1 (counterexample): the claim asserts that `'0'` shares the same high
frequency as `'9'`'s column (1477 Hz).  In the code `'0'` maps to high
frequency 1336 Hz while `'9'`'s column is 1477 Hz, so the claim as stated is
false at the concrete key `'0'`. -/
theorem dtmf_zero_column_counterexample :
    getFrequenciesForKey Preset.us '0' =
      some { a := 941, b := some 1336, isContinuous := false, cadence := none } ∧
    getFrequenciesForKey Preset.us '9' =
      some { a := 852, b := some 1477, isContinuous := false, cadence := none } ∧
    (getFrequenciesForKey Preset.us '0').map (fun t => t.b) ≠
      (getFrequenciesForKey Preset.us '9').map (fun t => t.b) := by
  refine ⟨by decide, by decide, by decide⟩

/-- C1 (amended): for every digit key `'0'`-`'9'` and for `'#'`, under either
regional preset, the frequency lookup returns the standard DTMF
low-group/high-group pair (low group 697/770/852/941 Hz, high group
1209/1336/1477 Hz, with `'#'` sharing the high frequency of `'9'`'s column
and `'0'` sharing the high frequency of `'8'`'s column) with
`isContinuous = false` and no cadence, and the eleven (low, high) pairs are
pairwise distinct. -/
theorem dtmf_digit_pairs_standard (preset : Preset) :
    dtmfKeys.map (getFrequenciesForKey preset) =
      [some { a := 941, b := some 1336, isContinuous := false, cadence := none },
       some { a := 697, b := some 1209, isContinuous := false, cadence := none },
       some { a := 697, b := some 1336, isContinuous := false, cadence := none },
       some { a := 697, b := some 1477, isContinuous := false, cadence := none },
       some { a := 770, b := some 1209, isContinuous := false, cadence := none },
       some { a := 770, b := some 1336, isContinuous := false, cadence := none },
       some { a := 770, b := some 1477, isContinuous := false, cadence := none },
       some { a := 852, b := some 1209, isContinuous := false, cadence := none },
       some { a := 852, b := some 1336, isContinuous := false, cadence := none },
       some { a := 852, b := some 1477, isContinuous := false, cadence := none },
       some { a := 941, b := some 1477, isContinuous := false, cadence := none }] ∧
    List.Pairwise (fun x y => x ≠ y) (dtmfKeys.map (freqPair preset)) := by
  cases preset <;> exact ⟨by decide, by decide⟩

/-- C2: the lookup for `'*'` returns the dial-tone spec `{350, 440,
continuous}` under the `us` preset and `{400, none, continuous}` under the
`jp` preset (two different specs, both continuous), and the lookup for `'/'`
returns `{480, 620, not continuous, cadence 250/250}` under either preset. -/
theorem star_slash_lookup_spec (preset : Preset) :
    getFrequenciesForKey Preset.us '*' =
      some { a := 350, b := some 440, isContinuous := true, cadence := none } ∧
    getFrequenciesForKey Preset.jp '*' =
      some { a := 400, b := none, isContinuous := true, cadence := none } ∧
    getFrequenciesForKey Preset.us '*' ≠ getFrequenciesForKey Preset.jp '*' ∧
    (getFrequenciesForKey preset '*').map (fun t => t.isContinuous) = some true ∧
    getFrequenciesForKey preset '/' =
      some { a := 480, b := some 620, isContinuous := false,
             cadence := some { onMs := 250, offMs := 250 } } := by
  cases preset <;> exact ⟨by decide, by decide, by decide, by decide, by decide⟩

/-- A pending cadence timer: the closure scheduled by `window.setTimeout`
inside the cadence `toggle` of `startToneForKey` (app.js line 119).  It
records the argument the scheduled call will receive (`toggle(!isOn)`), the
delay it was scheduled with, and the captured `onMs`/`offMs`. -/
structure CadencePending where
  isOn : Bool
  delayMs : Nat
  onMs : Nat
  offMs : Nat
deriving DecidableEq, Repr

/-- Ghost record for a backend oscillator that has been created, started and
not yet stopped.  `tone` is the generation counter of the `startToneForKey`
call that created it. -/
structure AliveOsc where
  id : Nat
  freq : Nat
  tone : Nat
deriving DecidableEq, Repr

/-- The mutable fields of the `ToneEngine` instance (app.js lines 4-23),
plus ghost backend state: `aliveOscs` (oscillators currently alive),
`nextOscId` (fresh oscillator ids) and `toneGen` (a generation counter
bumped by each tone allocation). -/
structure EngineState where
  contextCreated : Bool
  masterGain : Option ℚ
  toneGain : Option ℚ
  oscA : Option Nat
  oscB : Option Nat
  currentKey : Option Char
  isStarted : Bool
  masterVolume : ℚ
  cadenceTimeoutId : Option CadencePending
  dialPreset : Preset
  aliveOscs : List AliveOsc
  nextOscId : Nat
  toneGen : Nat
deriving DecidableEq, Repr

/-- The engine right after the constructor runs (app.js lines 4-23):
no audio context, no nodes, volume 0.3, preset `'us'`. -/
def initialEngineState : EngineState :=
  { contextCreated := false, masterGain := none, toneGain := none,
    oscA := none, oscB := none, currentKey := none, isStarted := false,
    masterVolume := 3 / 10, cadenceTimeoutId := none, dialPreset := Preset.us,
    aliveOscs := [], nextOscId := 0, toneGen := 0 }

/-- `ToneEngine.ensureContext` (app.js lines 25-36): lazily creates the
audio context and the master gain node (initialised to `masterVolume` and
connected to the destination); `resume()` of a suspended context has no
modelled state effect. -/
def ensureContext (s : EngineState) : EngineState :=
  if s.contextCreated then s
  else { s with contextCreated := true, masterGain := some s.masterVolume }

/-- `ToneEngine.setVolume` (app.js lines 38-43): stores the argument in
`masterVolume` and, when the master gain node exists, writes it to
`masterGain.gain.value`. -/
def setVolume (v : ℚ) (s : EngineState) : EngineState :=
  let s1 := { s with masterVolume := v }
  match s1.masterGain with
  | some _ => { s1 with masterGain := some v }
  | none => s1

/-- `ToneEngine.setDialPreset` (app.js lines 49-51). -/
def setDialPreset (p : Preset) (s : EngineState) : EngineState :=
  { s with dialPreset := p }

/-- `ToneEngine.stopTone` (app.js lines 125-148): early return when not
started; otherwise clears any pending cadence timeout, stops and disconnects
`oscA` and `oscB` (removing them from the alive list), disconnects the tone
gain, and nulls all per-tone fields. -/
def stopTone (s : EngineState) : EngineState :=
  if s.isStarted = false then s
  else
    let alive1 := match s.oscA with
      | some ida => s.aliveOscs.filter (fun o => decide (o.id ≠ ida))
      | none => s.aliveOscs
    let alive2 := match s.oscB with
      | some idb => alive1.filter (fun o => decide (o.id ≠ idb))
      | none => alive1
    { s with cadenceTimeoutId := none, oscA := none, oscB := none,
             toneGain := none, isStarted := false, currentKey := none,
             aliveOscs := alive2 }

/-- One call of the cadence `toggle` closure (app.js lines 113-120): bails
out if the context or the tone gain is gone, otherwise sets the gate gain to
1 or 0 (`cancelScheduledValues` then `setValueAtTime`) and schedules
`toggle(!isOn)` after `onMs` (when entering On) or `offMs` (when entering
Off). -/
def cadenceToggle (onMs offMs : Nat) (isOn : Bool) (s : EngineState) : EngineState :=
  if s.contextCreated = false ∨ s.toneGain = none then s
  else
    { s with toneGain := some (if isOn then 1 else 0),
             cadenceTimeoutId :=
               some { isOn := !isOn, delayMs := if isOn then onMs else offMs,
                      onMs := onMs, offMs := offMs } }

/-- Firing the pending cadence timeout: calls the scheduled `toggle` with the
captured argument.  With no pending timeout nothing happens. -/
def fireCadence (s : EngineState) : EngineState :=
  match s.cadenceTimeoutId with
  | some p => cadenceToggle p.onMs p.offMs p.isOn s
  | none => s

/-- The allocation part of `startToneForKey` (app.js lines 88-122), run after
the previous tone has been torn down: creates the tone gain (value 1,
connected to the master gain), creates and starts one or two oscillators at
the spec frequencies, records `currentKey`/`isStarted`, and, for a cadenced
spec, runs `toggle(true)`. -/
def connectTone (key : Char) (spec : ToneSpec) (s : EngineState) : EngineState :=
  let gen := s.toneGen + 1
  let ida := s.nextOscId
  let s1 := { s with toneGain := some 1, oscA := some ida, toneGen := gen }
  let s2 := match spec.b with
    | some fb =>
        { s1 with oscB := some (ida + 1),
                  aliveOscs := s.aliveOscs ++
                    ([{ id := ida, freq := spec.a, tone := gen },
                      { id := ida + 1, freq := fb, tone := gen }] : List AliveOsc),
                  nextOscId := ida + 2 }
    | none =>
        { s1 with oscB := none,
                  aliveOscs := s.aliveOscs ++
                    ([{ id := ida, freq := spec.a, tone := gen }] : List AliveOsc),
                  nextOscId := ida + 1 }
  let s3 := { s2 with currentKey := some key, isStarted := true }
  match spec.cadence with
  | some c => cadenceToggle c.onMs c.offMs true s3
  | none => s3

/-- `ToneEngine.startToneForKey` (app.js lines 79-123): looks up the spec
(returning untouched on an unknown key), ensures the context, bails out if
context or master gain is missing, tears down the previous tone via
`stopTone`, then allocates and connects the new tone. -/
def startToneForKey (key : Char) (s : EngineState) : EngineState :=
  match getFrequenciesForKey s.dialPreset key with
  | none => s
  | some spec =>
      let s1 := ensureContext s
      if s1.contextCreated = false ∨ s1.masterGain = none then s1
      else connectTone key spec (stopTone s1)

/-- The sequence-player variables of the source (app.js lines 174-179):
`seqBuffer`, `seqTimer`, `isSeqPlaying`, plus a fresh-timer-id counter for
the ghost timer ids. -/
structure SeqState where
  seqBuffer : List Char
  seqTimer : Option Nat
  isSeqPlaying : Bool
  nextTimerId : Nat
deriving DecidableEq, Repr

/-- Observable notifications of the sequence player: a key starting to play
(`setCurrentKey(k)` / `appendLog(k)` / `engine.startToneForKey(k)`), a key
ending (`engine.stopTone()` plus `setCurrentKey('—')` in the inner timeout),
and the idle report (`setStatus('待機中')` on queue exhaustion). -/
inductive Ev where
  | keyStarted (k : Char)
  | keyEnded (k : Char)
  | seqIdle
deriving DecidableEq, Repr

/-- `cancelSequencePlayback` (app.js lines 221-227): clears the pending
sequence timer if any and lowers the playing flag.  The buffer is not
touched. -/
def cancelSequencePlayback (ss : SeqState) : SeqState :=
  { ss with seqTimer := none, isSeqPlaying := false }

/-- The buffer-consuming loop of `scheduleNextFromBuffer` (app.js lines
231-263), recursing over the buffer exactly as the source recurses on an
unrecognised key: on an empty buffer it lowers the playing flag and reports
idle; on a recognised key it starts the tone, emits the key-started
notification and leaves an inner timeout pending for that key.  Returns the
new engine state, the remaining buffer, the playing flag, the emitted
events, and the key of the pending inner timeout (if one was scheduled). -/
def drainStep (es : EngineState) :
    List Char → EngineState × List Char × Bool × List Ev × Option Char
  | [] => (es, [], false, [Ev.seqIdle], none)
  | k :: rest =>
      if isValidKey k then
        (startToneForKey k es, rest, true, [Ev.keyStarted k], some k)
      else
        drainStep es rest

/-- `scheduleNextFromBuffer` (app.js lines 229-264): returns immediately
when the playing flag is down, otherwise consumes the buffer via
`drainStep`. -/
def scheduleNextFromBuffer (es : EngineState) (ss : SeqState) :
    EngineState × SeqState × List Ev × Option Char :=
  if ss.isSeqPlaying = false then (es, ss, [], none)
  else
    match drainStep es ss.seqBuffer with
    | (es1, buf1, playing1, evs, pend) =>
        (es1, { ss with seqBuffer := buf1, isSeqPlaying := playing1 }, evs, pend)

/-- Firing the inner timeout scheduled by `playOnce` for key `k` (app.js
lines 246-253): stops the tone and reports the key ended only when the
engine's current key still matches, then schedules `scheduleNextFromBuffer`
after the gap, storing the new timer in `seqTimer`. -/
def fireInner (k : Char) (es : EngineState) (ss : SeqState) :
    EngineState × SeqState × List Ev :=
  if es.currentKey = some k then
    (stopTone es,
     { ss with seqTimer := some ss.nextTimerId, nextTimerId := ss.nextTimerId + 1 },
     [Ev.keyEnded k])
  else
    (es,
     { ss with seqTimer := some ss.nextTimerId, nextTimerId := ss.nextTimerId + 1 },
     [])

/-- Uninterrupted sequence playback: runs `scheduleNextFromBuffer` and, as
long as it leaves an inner timeout pending, fires that timeout and then the
`seqTimer` drain callback it schedules, exactly in the order the source's
timers fire when nothing interferes.  `fuel` bounds the number of played
keys; the buffer length suffices. -/
def runDrain : Nat → EngineState → SeqState → EngineState × SeqState × List Ev
  | 0, es, ss =>
      match scheduleNextFromBuffer es ss with
      | (es1, ss1, evs, _) => (es1, ss1, evs)
  | fuel + 1, es, ss =>
      match scheduleNextFromBuffer es ss with
      | (es1, ss1, evs, none) => (es1, ss1, evs)
      | (es1, ss1, evs, some k) =>
          match fireInner k es1 ss1 with
          | (es2, ss2, evs2) =>
              match runDrain fuel es2 ss2 with
              | (es3, ss3, evs3) => (es3, ss3, evs ++ (evs2 ++ evs3))

/-- `startSequencePlaybackFromText` (app.js lines 266-275) followed by the
timer-driven completion of the playback: truncates the input to 128 symbols,
replaces the buffer, returns early when the truncation is empty, and
otherwise cancels any prior timer, raises the playing flag and drains the
buffer to completion. -/
def startSequencePlaybackFromText (raw : List Char) (es : EngineState) (ss : SeqState) :
    EngineState × SeqState × List Ev :=
  let input := raw.take 128
  let ss1 := { ss with seqBuffer := input }
  if input.isEmpty then (es, ss1, [])
  else
    let ss2 := { cancelSequencePlayback ss1 with isSeqPlaying := true }
    runDrain input.length es ss2

/-- The keys reported as started, in order. -/
def playedKeys (evs : List Ev) : List Char :=
  evs.filterMap (fun e => match e with | Ev.keyStarted k => some k | _ => none)

/-- How many times the idle report fired. -/
def idleCount (evs : List Ev) : Nat := evs.count Ev.seqIdle

/-- A sequence-player step that can occur after a cancellation without a new
`startSequencePlaybackFromText`: a pending drain callback fires, a pending
inner timeout fires, or `cancelSequencePlayback` is called again. -/
inductive PostCancelStep :
    EngineState × SeqState → List Ev → EngineState × SeqState → Prop where
  | drain {es ss es1 ss1 evs pend} :
      scheduleNextFromBuffer es ss = (es1, ss1, evs, pend) →
      PostCancelStep (es, ss) evs (es1, ss1)
  | inner {es ss es1 ss1 evs} (k : Char) :
      fireInner k es ss = (es1, ss1, evs) →
      PostCancelStep (es, ss) evs (es1, ss1)
  | cancelAgain {es ss} :
      PostCancelStep (es, ss) [] (es, cancelSequencePlayback ss)

/-- Reflexive-transitive closure of `PostCancelStep`, accumulating the
emitted events. -/
inductive PostTrace :
    EngineState × SeqState → List Ev → EngineState × SeqState → Prop where
  | refl (p : EngineState × SeqState) : PostTrace p [] p
  | step {p q r evs evs2} :
      PostCancelStep p evs q → PostTrace q evs2 r → PostTrace p (evs ++ evs2) r

lemma stopTone_not_started {s : EngineState} (h : s.isStarted = false) :
    stopTone s = s := by
  simp [stopTone, h]

lemma stopTone_isStarted (s : EngineState) : (stopTone s).isStarted = false := by
  unfold stopTone
  split
  · assumption
  · rfl

lemma stopTone_contextCreated (s : EngineState) :
    (stopTone s).contextCreated = s.contextCreated := by
  unfold stopTone
  split <;> rfl

lemma stopTone_masterGain (s : EngineState) :
    (stopTone s).masterGain = s.masterGain := by
  unfold stopTone
  split <;> rfl

lemma stopTone_started_fields {s : EngineState} (h : s.isStarted = true) :
    (stopTone s).cadenceTimeoutId = none ∧ (stopTone s).oscA = none ∧
    (stopTone s).oscB = none ∧ (stopTone s).toneGain = none ∧
    (stopTone s).currentKey = none ∧
    ∀ o ∈ (stopTone s).aliveOscs, some o.id ≠ s.oscA ∧ some o.id ≠ s.oscB := by
  unfold stopTone
  rw [if_neg (by simp [h])]
  refine ⟨rfl, rfl, rfl, rfl, rfl, ?_⟩
  intro o ho
  rcases hA : s.oscA with _ | ida <;> rcases hB : s.oscB with _ | idb <;>
    simp only [hA, hB, List.mem_filter, decide_eq_true_eq] at ho ⊢ <;>
    simp_all

/-- C4: `stopTone` is idempotent: when no tone is playing it returns the
state unchanged; otherwise it cancels the pending cadence timeout, stops and
releases both oscillators (none of the stopped tone's oscillators stays
alive) and the gate node, and resets `currentKey` to `none` and `isStarted`
to `false`; `stopTone` applied twice equals `stopTone` applied once. -/
theorem stopTone_idempotent_resets (s : EngineState) :
    (s.isStarted = false → stopTone s = s) ∧
    (s.isStarted = true →
      (stopTone s).cadenceTimeoutId = none ∧ (stopTone s).oscA = none ∧
      (stopTone s).oscB = none ∧ (stopTone s).toneGain = none ∧
      (stopTone s).currentKey = none ∧ (stopTone s).isStarted = false ∧
      ∀ o ∈ (stopTone s).aliveOscs, some o.id ≠ s.oscA ∧ some o.id ≠ s.oscB) ∧
    stopTone (stopTone s) = stopTone s := by
  refine ⟨fun h => stopTone_not_started h, ?_, stopTone_not_started (stopTone_isStarted s)⟩
  intro h
  obtain ⟨h1, h2, h3, h4, h5, h6⟩ := stopTone_started_fields h
  exact ⟨h1, h2, h3, h4, h5, stopTone_isStarted s, h6⟩

/-- C4 witness: concrete instances of both branches — stopping the freshly
constructed (idle) engine is a no-op, and stopping after starting key `'1'`
resets every per-tone field and is idempotent. -/
theorem stopTone_idempotent_resets_witness :
    stopTone initialEngineState = initialEngineState ∧
    (stopTone (startToneForKey '1' initialEngineState)).cadenceTimeoutId = none ∧
    (stopTone (startToneForKey '1' initialEngineState)).currentKey = none ∧
    (stopTone (startToneForKey '1' initialEngineState)).isStarted = false ∧
    stopTone (stopTone (startToneForKey '1' initialEngineState)) =
      stopTone (startToneForKey '1' initialEngineState) :=
  ⟨(stopTone_idempotent_resets initialEngineState).1 rfl,
   ((stopTone_idempotent_resets (startToneForKey '1' initialEngineState)).2.1 (by decide)).1,
   ((stopTone_idempotent_resets (startToneForKey '1' initialEngineState)).2.1 (by decide)).2.2.2.2.1,
   ((stopTone_idempotent_resets (startToneForKey '1' initialEngineState)).2.1 (by decide)).2.2.2.2.2.1,
   (stopTone_idempotent_resets (startToneForKey '1' initialEngineState)).2.2⟩

/-- C8 (counterexample): `setVolume` does not clamp its argument to `[0, 1]`:
passing 2 stores a master volume of 2, which lies outside the range a clamp
would enforce. -/
theorem setVolume_no_clamp_counterexample :
    (setVolume 2 initialEngineState).masterVolume = 2 ∧
    ¬((setVolume 2 initialEngineState).masterVolume ≤ 1) := by
  exact ⟨by decide, by decide⟩

/-- C8 (amended): `setVolume v` stores `v` unclamped as the master volume
(the source relies on its caller, the volume slider, for the `[0, 1]`
range), writes `v` to the master gain stage when it exists while leaving the
per-tone gate gain untouched, and applying it twice with the same value
yields the same state as applying it once. -/
theorem setVolume_unclamped_idempotent (v : ℚ) (s : EngineState) :
    (setVolume v s).masterVolume = v ∧
    (setVolume v s).masterGain = s.masterGain.map (fun _ => v) ∧
    (setVolume v s).toneGain = s.toneGain ∧
    setVolume v (setVolume v s) = setVolume v s := by
  rcases h : s.masterGain with _ | g <;> simp [setVolume, h]

/-- C9: for every symbol outside the recognised key set, the frequency
lookup returns `none` and `startToneForKey` is a no-op returning the engine
state unchanged (no teardown, no allocation, no error). -/
theorem unknown_key_noop (s : EngineState) (k : Char) (h : k ∉ validKeys) :
    getFrequenciesForKey s.dialPreset k = none ∧ startToneForKey k s = s := by
  simp only [validKeys, List.mem_cons, List.not_mem_nil, or_false, not_or] at h
  obtain ⟨e0, e1, e2, e3, e4, e5, e6, e7, e8, e9, eh, es, ed⟩ := h
  have hnone : getFrequenciesForKey s.dialPreset k = none := by
    simp [getFrequenciesForKey, dtmfLow, dtmfHigh,
          e0, e1, e2, e3, e4, e5, e6, e7, e8, e9, eh, es, ed]
  exact ⟨hnone, by simp [startToneForKey, hnone]⟩

/-- C9 witness: the letter `'a'` is not a recognised key, its lookup is
`none`, and starting it on the fresh engine changes nothing. -/
theorem unknown_key_noop_witness :
    'a' ∉ validKeys ∧
    (getFrequenciesForKey initialEngineState.dialPreset 'a' = none ∧
     startToneForKey 'a' initialEngineState = initialEngineState) :=
  ⟨by decide, unknown_key_noop initialEngineState 'a' (by decide)⟩

/-- C10: starting sequence playback with empty input replaces the buffer
with the empty list and returns early — the pending sequence timer and the
playing flag are left untouched and nothing is played; consequently, when a
sequence was actively playing, the already-scheduled drain callback still
fires, finds the emptied buffer, reports idle and lowers the playing
flag. -/
theorem empty_input_early_return (es : EngineState) (ss : SeqState) :
    startSequencePlaybackFromText [] es ss = (es, { ss with seqBuffer := [] }, []) ∧
    (ss.isSeqPlaying = true →
      scheduleNextFromBuffer es { ss with seqBuffer := [] } =
        (es, { ss with seqBuffer := [], isSeqPlaying := false }, [Ev.seqIdle], none)) := by
  constructor
  · simp [startSequencePlaybackFromText]
  · intro h
    simp [scheduleNextFromBuffer, h, drainStep]

/-- C10 witness: a mid-sequence state with two queued keys, a pending timer
and the playing flag raised: the empty-input call empties only the buffer,
and the subsequent drain callback reports idle. -/
theorem empty_input_early_return_witness :
    startSequencePlaybackFromText [] initialEngineState
        ⟨['1', '2'], some 5, true, 7⟩ =
      (initialEngineState, ⟨[], some 5, true, 7⟩, []) ∧
    scheduleNextFromBuffer initialEngineState ⟨[], some 5, true, 7⟩ =
      (initialEngineState, ⟨[], some 5, false, 7⟩, [Ev.seqIdle], none) :=
  ⟨(empty_input_early_return initialEngineState ⟨['1', '2'], some 5, true, 7⟩).1,
   (empty_input_early_return initialEngineState ⟨['1', '2'], some 5, true, 7⟩).2 rfl⟩

lemma postCancelStep_silent {p q : EngineState × SeqState} {evs : List Ev}
    (hp : p.2.isSeqPlaying = false) (hstep : PostCancelStep p evs q) :
    (∀ k, Ev.keyStarted k ∉ evs) ∧ q.2.isSeqPlaying = false := by
  cases hstep with
  | drain heq =>
      rw [scheduleNextFromBuffer, if_pos hp] at heq
      injection heq with h1 h2
      injection h2 with h2 h3
      injection h3 with h3 h4
      subst h2
      subst h3
      exact ⟨by simp, hp⟩
  | inner k heq =>
      rw [fireInner] at heq
      split at heq <;>
        (injection heq with h1 h2
         injection h2 with h2 h3
         subst h2
         subst h3
         exact ⟨by simp, hp⟩)
  | cancelAgain =>
      exact ⟨by simp, rfl⟩

lemma postTrace_no_keyStarted {p q : EngineState × SeqState} {evs : List Ev}
    (ht : PostTrace p evs q) :
    p.2.isSeqPlaying = false → ∀ k, Ev.keyStarted k ∉ evs := by
  induction ht with
  | refl => intro _ k; simp
  | step hstep _ ih =>
      intro hp k
      obtain ⟨hnot, hnext⟩ := postCancelStep_silent hp hstep
      simp only [List.mem_append, not_or]
      exact ⟨hnot k, ih hnext k⟩

/-- C5 (counterexample): `cancelSequencePlayback` does not clear the queue:
cancelling a state whose buffer holds `'1'` leaves that buffer intact. -/
theorem cancel_sequence_keeps_queue_counterexample :
    (cancelSequencePlayback ⟨['1'], some 0, true, 1⟩).seqBuffer = ['1'] ∧
    (['1'] : List Char) ≠ [] :=
  ⟨rfl, by decide⟩

/-- C5 (amended): `cancelSequencePlayback` is idempotent, cancels any
pending sequence timer and lowers the playing flag while leaving the queue
contents in place (the leftover queue is never drained, because the drain
callback exits when the flag is down); after a cancellation, no further
key-started notification fires along any sequence of drain firings, inner
timeout firings and repeated cancellations. -/
theorem cancel_sequence_properties (es : EngineState) (ss : SeqState) :
    cancelSequencePlayback (cancelSequencePlayback ss) = cancelSequencePlayback ss ∧
    (cancelSequencePlayback ss).seqTimer = none ∧
    (cancelSequencePlayback ss).isSeqPlaying = false ∧
    (cancelSequencePlayback ss).seqBuffer = ss.seqBuffer ∧
    (∀ (evs : List Ev) (q : EngineState × SeqState),
       PostTrace (es, cancelSequencePlayback ss) evs q →
       ∀ k, Ev.keyStarted k ∉ evs) :=
  ⟨rfl, rfl, rfl, rfl, fun _ _ ht k => postTrace_no_keyStarted ht rfl k⟩

/-- C5 witness: cancelling a concrete mid-sequence state twice equals
cancelling it once, and the empty post-cancellation trace emits no
key-started notification. -/
theorem cancel_sequence_properties_witness :
    cancelSequencePlayback (cancelSequencePlayback ⟨['1'], some 0, true, 1⟩) =
      cancelSequencePlayback ⟨['1'], some 0, true, 1⟩ ∧
    (∀ k, Ev.keyStarted k ∉ ([] : List Ev)) :=
  ⟨(cancel_sequence_properties initialEngineState ⟨['1'], some 0, true, 1⟩).1,
   (cancel_sequence_properties initialEngineState ⟨['1'], some 0, true, 1⟩).2.2.2.2 []
     (initialEngineState, cancelSequencePlayback ⟨['1'], some 0, true, 1⟩)
     (PostTrace.refl _)⟩

lemma drainStep_spec (es : EngineState) (l : List Char) :
    (l.filter isValidKey = [] ∧ drainStep es l = (es, [], false, [Ev.seqIdle], none)) ∨
    (∃ k rest, l.filter isValidKey = k :: rest.filter isValidKey ∧
       rest.length < l.length ∧
       drainStep es l = (startToneForKey k es, rest, true, [Ev.keyStarted k], some k)) := by
  induction l with
  | nil => exact Or.inl ⟨rfl, rfl⟩
  | cons k rest ih =>
      cases hk : isValidKey k
      · rcases ih with ⟨hfil, hds⟩ | ⟨k1, rest1, hfil, hlen, hds⟩
        · exact Or.inl ⟨by simp [List.filter_cons, hk, hfil], by simp [drainStep, hk, hds]⟩
        · refine Or.inr ⟨k1, rest1, ?_, ?_, ?_⟩
          · simp [List.filter_cons, hk, hfil]
          · exact Nat.lt_succ_of_lt hlen
          · simp [drainStep, hk, hds]
      · refine Or.inr ⟨k, rest, ?_, Nat.lt_succ_self _, ?_⟩
        · simp [List.filter_cons, hk]
        · simp [drainStep, hk]

lemma playedKeys_append (a b : List Ev) :
    playedKeys (a ++ b) = playedKeys a ++ playedKeys b := by
  simp [playedKeys]

lemma idleCount_append (a b : List Ev) :
    idleCount (a ++ b) = idleCount a + idleCount b := by
  simp [idleCount]

lemma fireInner_facts (k : Char) (es : EngineState) (ss : SeqState) :
    playedKeys (fireInner k es ss).2.2 = [] ∧
    idleCount (fireInner k es ss).2.2 = 0 ∧
    (fireInner k es ss).2.1.isSeqPlaying = ss.isSeqPlaying ∧
    (fireInner k es ss).2.1.seqBuffer = ss.seqBuffer := by
  rw [fireInner]
  split <;> simp [playedKeys, idleCount]

lemma runDrain_spec (fuel : Nat) :
    ∀ (l : List Char) (es : EngineState) (ss : SeqState),
      ss.isSeqPlaying = true → ss.seqBuffer = l → l.length ≤ fuel →
      playedKeys (runDrain fuel es ss).2.2 = l.filter isValidKey ∧
      idleCount (runDrain fuel es ss).2.2 = 1 ∧
      (runDrain fuel es ss).2.1.isSeqPlaying = false := by
  induction fuel with
  | zero =>
      intro l es ss hp hb hl
      have hnil : l = [] := List.length_eq_zero.mp (Nat.le_zero.mp hl)
      subst hnil
      rw [runDrain, scheduleNextFromBuffer, if_neg (by simp [hp]), hb]
      simp [drainStep, playedKeys, idleCount]
  | succ fuel ih =>
      intro l es ss hp hb hl
      rcases drainStep_spec es l with ⟨hfil, hds⟩ | ⟨k, rest, hfil, hlen, hds⟩
      · rw [runDrain, scheduleNextFromBuffer, if_neg (by simp [hp]), hb, hds]
        simp [playedKeys, idleCount, hfil]
      · rw [runDrain, scheduleNextFromBuffer, if_neg (by simp [hp]), hb, hds]
        dsimp only
        set ss1 : SeqState := { ss with seqBuffer := rest, isSeqPlaying := true } with hss1
        obtain ⟨hpl2, hic2, hpl2p, hpl2b⟩ :=
          fireInner_facts k (startToneForKey k es) ss1
        obtain ⟨f2es, f2ss, f2evs, hfi⟩ :
            ∃ a b c, fireInner k (startToneForKey k es) ss1 = (a, b, c) :=
          ⟨_, _, _, rfl⟩
        rw [hfi] at hpl2 hic2 hpl2p hpl2b
        dsimp only at hpl2 hic2 hpl2p hpl2b
        obtain ⟨hpl3, hic3, hpl3p⟩ := ih rest f2es f2ss
          (by rw [hpl2p]) (by rw [hpl2b]) (by omega)
        obtain ⟨r3es, r3ss, r3evs, hr3⟩ :
            ∃ a b c, runDrain fuel f2es f2ss = (a, b, c) :=
          ⟨_, _, _, rfl⟩
        rw [hr3] at hpl3 hic3 hpl3p
        dsimp only at hpl3 hic3 hpl3p
        rw [hfi, hr3]
        dsimp only
        rw [playedKeys_append, idleCount_append, playedKeys_append, idleCount_append,
            hpl2, hic2, hpl3, hic3, hfil]
        refine ⟨?_, rfl, hpl3p⟩
        simp [playedKeys]

/-- C6: sequence playback truncates the input to at most 128 symbols,
replaces any prior queue, raises the playing flag and drains the buffer
front to back: the keys reported as started are exactly the recognised
symbols of the truncated input in input order (unrecognised symbols are
skipped silently), the idle report fires exactly once, and the player ends
not playing. -/
theorem sequence_playback_drains_valid_keys (raw : List Char) (es : EngineState)
    (ss : SeqState) (h : raw.take 128 ≠ []) :
    playedKeys (startSequencePlaybackFromText raw es ss).2.2 =
      (raw.take 128).filter isValidKey ∧
    idleCount (startSequencePlaybackFromText raw es ss).2.2 = 1 ∧
    (startSequencePlaybackFromText raw es ss).2.1.isSeqPlaying = false := by
  rw [startSequencePlaybackFromText]
  simp only [List.isEmpty_eq_true]
  rw [if_neg h]
  exact runDrain_spec (raw.take 128).length (raw.take 128) es _ rfl rfl (le_refl _)

/-- C6 witness: playing the text `"12a3"` plays exactly the keys `'1'`,
`'2'`, `'3'` in order (the symbol `'a'` is dropped) and reports idle exactly
once. -/
theorem sequence_playback_drains_valid_keys_witness :
    ("12a3".toList.take 128 ≠ []) ∧
    ("12a3".toList.take 128).filter isValidKey = ['1', '2', '3'] ∧
    (playedKeys
        (startSequencePlaybackFromText "12a3".toList initialEngineState
          ⟨[], none, false, 0⟩).2.2 =
      ("12a3".toList.take 128).filter isValidKey ∧
    idleCount
        (startSequencePlaybackFromText "12a3".toList initialEngineState
          ⟨[], none, false, 0⟩).2.2 = 1 ∧
    (startSequencePlaybackFromText "12a3".toList initialEngineState
        ⟨[], none, false, 0⟩).2.1.isSeqPlaying = false) :=
  ⟨by decide, by decide,
   sequence_playback_drains_valid_keys "12a3".toList initialEngineState
     ⟨[], none, false, 0⟩ (by decide)⟩

lemma ensureContext_contextCreated (s : EngineState) :
    (ensureContext s).contextCreated = true := by
  unfold ensureContext
  split
  · assumption
  · rfl

lemma ensureContext_masterGain {s : EngineState}
    (h : s.contextCreated = true → s.masterGain ≠ none) :
    (ensureContext s).masterGain ≠ none := by
  unfold ensureContext
  split
  · exact h (by assumption)
  · simp

lemma cadenceToggle_eq {t : EngineState} (onMs offMs : Nat) (isOn : Bool)
    (hc : t.contextCreated = true) (hg : t.toneGain ≠ none) :
    cadenceToggle onMs offMs isOn t =
      { t with toneGain := some (if isOn then 1 else 0),
               cadenceTimeoutId :=
                 some { isOn := !isOn, delayMs := if isOn then onMs else offMs,
                        onMs := onMs, offMs := offMs } } := by
  rw [cadenceToggle, if_neg (by simp [hc, hg])]

lemma connectTone_cadence_fields (key : Char) (spec : ToneSpec) (c : Cadence)
    (hcad : spec.cadence = some c) (s2 : EngineState)
    (hc : s2.contextCreated = true) :
    (connectTone key spec s2).contextCreated = true ∧
    (connectTone key spec s2).isStarted = true ∧
    (connectTone key spec s2).toneGain = some 1 ∧
    (connectTone key spec s2).cadenceTimeoutId =
      some { isOn := false, delayMs := c.onMs, onMs := c.onMs, offMs := c.offMs } := by
  rw [connectTone]
  dsimp only
  rcases hb : spec.b with _ | fb <;>
    (rw [hcad]
     dsimp only
     rw [cadenceToggle, if_neg (by simp [hc])]
     exact ⟨hc, rfl, by simp, by simp⟩)

lemma startToneForKey_slash_fields (s : EngineState)
    (h : s.contextCreated = true → s.masterGain ≠ none) :
    (startToneForKey '/' s).contextCreated = true ∧
    (startToneForKey '/' s).isStarted = true ∧
    (startToneForKey '/' s).toneGain = some 1 ∧
    (startToneForKey '/' s).cadenceTimeoutId =
      some { isOn := false, delayMs := 250, onMs := 250, offMs := 250 } := by
  have hspec : getFrequenciesForKey s.dialPreset '/' =
      some { a := 480, b := some 620, isContinuous := false,
             cadence := some { onMs := 250, offMs := 250 } } := by
    simp [getFrequenciesForKey]
  rw [startToneForKey, hspec]
  dsimp only
  rw [if_neg (by simp [ensureContext_contextCreated, ensureContext_masterGain h])]
  exact connectTone_cadence_fields '/' _ { onMs := 250, offMs := 250 } rfl
    (stopTone (ensureContext s))
    (by rw [stopTone_contextCreated, ensureContext_contextCreated])

lemma cadence_iter_aux (s0 : EngineState)
    (h : s0.contextCreated = true → s0.masterGain ≠ none) :
    ∀ n : Nat,
      (fireCadence^[n] (startToneForKey '/' s0)).contextCreated = true ∧
      (fireCadence^[n] (startToneForKey '/' s0)).isStarted = true ∧
      (fireCadence^[n] (startToneForKey '/' s0)).toneGain =
        some (if n % 2 = 0 then 1 else 0) ∧
      (fireCadence^[n] (startToneForKey '/' s0)).cadenceTimeoutId =
        some { isOn := decide (n % 2 = 1), delayMs := 250, onMs := 250, offMs := 250 } := by
  intro n
  induction n with
  | zero =>
      obtain ⟨hc, hs, hg, hp⟩ := startToneForKey_slash_fields s0 h
      rw [Function.iterate_zero_apply]
      exact ⟨hc, hs, by simpa using hg, by simpa using hp⟩
  | succ n ih =>
      obtain ⟨hc, hs, hg, hp⟩ := ih
      rw [Function.iterate_succ_apply', fireCadence, hp]
      dsimp only
      rw [cadenceToggle_eq 250 250 _ hc (by rw [hg]; simp)]
      refine ⟨hc, hs, ?_, ?_⟩ <;>
        (rcases Nat.mod_two_eq_zero_or_one n with h2 | h2 <;>
          (have h2' : (n + 1) % 2 = 1 - n % 2 := by omega
           simp [h2, h2']))

/-- C7: starting the cadenced key `'/'` enters the On state with the gate
gain set to 1 and a first toggle scheduled after `onMs = 250`; each call of
the cadence toggle sets the gate to 1 (entering On) or 0 (entering Off) and
schedules the next toggle with delay `onMs` when entering On and `offMs`
when entering Off, computed at the moment it fires; firing the pending
toggle `n` times alternates the gate 1, 0, 1, ... with a next toggle always
pending (the cycle never ends on its own), and `stopTone` is what clears the
pending toggle. -/
theorem cadence_alternates_until_stopped (s0 : EngineState)
    (h : s0.contextCreated = true → s0.masterGain ≠ none) :
    ((startToneForKey '/' s0).toneGain = some 1 ∧
     (startToneForKey '/' s0).cadenceTimeoutId =
       some { isOn := false, delayMs := 250, onMs := 250, offMs := 250 }) ∧
    (∀ (onMs offMs : Nat) (isOn : Bool) (t : EngineState),
       t.contextCreated = true → t.toneGain ≠ none →
       cadenceToggle onMs offMs isOn t =
         { t with toneGain := some (if isOn then 1 else 0),
                  cadenceTimeoutId :=
                    some { isOn := !isOn, delayMs := if isOn then onMs else offMs,
                           onMs := onMs, offMs := offMs } }) ∧
    (∀ n : Nat,
       (fireCadence^[n] (startToneForKey '/' s0)).toneGain =
         some (if n % 2 = 0 then 1 else 0) ∧
       (fireCadence^[n] (startToneForKey '/' s0)).cadenceTimeoutId =
         some { isOn := decide (n % 2 = 1), delayMs := 250, onMs := 250,
                offMs := 250 }) ∧
    (∀ n : Nat,
       (stopTone (fireCadence^[n] (startToneForKey '/' s0))).cadenceTimeoutId =
         none) := by
  obtain ⟨hc0, hs0, hg0, hp0⟩ := startToneForKey_slash_fields s0 h
  refine ⟨⟨hg0, hp0⟩, ?_, ?_, ?_⟩
  · intro onMs offMs isOn t hc hg
    exact cadenceToggle_eq onMs offMs isOn hc hg
  · intro n
    obtain ⟨-, -, hg, hp⟩ := cadence_iter_aux s0 h n
    exact ⟨hg, hp⟩
  · intro n
    obtain ⟨-, hs, -, -⟩ := cadence_iter_aux s0 h n
    exact (stopTone_started_fields hs).1

/-- C7 witness: for the fresh engine, starting `'/'` sets the gate to 1 with
a pending toggle, after three toggle firings the gate is 0 with a toggle
still pending, and stopping clears the pending toggle. -/
theorem cadence_alternates_until_stopped_witness :
    (initialEngineState.contextCreated = true →
       initialEngineState.masterGain ≠ none) ∧
    (startToneForKey '/' initialEngineState).toneGain = some 1 ∧
    (fireCadence^[3] (startToneForKey '/' initialEngineState)).toneGain =
      some (if 3 % 2 = 0 then 1 else 0) ∧
    (fireCadence^[3] (startToneForKey '/' initialEngineState)).cadenceTimeoutId =
      some { isOn := decide (3 % 2 = 1), delayMs := 250, onMs := 250, offMs := 250 } ∧
    (stopTone (fireCadence^[3] (startToneForKey '/' initialEngineState))).cadenceTimeoutId =
      none :=
  ⟨by decide,
   (cadence_alternates_until_stopped initialEngineState (by decide)).1.1,
   ((cadence_alternates_until_stopped initialEngineState (by decide)).2.2.1 3).1,
   ((cadence_alternates_until_stopped initialEngineState (by decide)).2.2.1 3).2,
   (cadence_alternates_until_stopped initialEngineState (by decide)).2.2.2 3⟩

/-- The engine-state invariant of claim C3: the implication chain
`isStarted = false → currentKey = none → cadenceTimeoutId = none`, the
alive-oscillator discipline (every alive oscillator belongs to the current
generation and is referenced by `oscA` or `oscB`), the cleanliness of a
stopped engine, and the context/master-gain coupling. -/
def EngineInv (s : EngineState) : Prop :=
  (s.isStarted = false → s.currentKey = none) ∧
  (s.currentKey = none → s.cadenceTimeoutId = none) ∧
  (∀ o ∈ s.aliveOscs, o.tone = s.toneGen ∧
     (some o.id = s.oscA ∨ some o.id = s.oscB)) ∧
  (s.isStarted = false →
     s.oscA = none ∧ s.oscB = none ∧ s.toneGain = none ∧ s.aliveOscs = []) ∧
  (s.contextCreated = true → s.masterGain ≠ none)

lemma engineInv_initial : EngineInv initialEngineState := by
  refine ⟨fun _ => rfl, fun _ => rfl, ?_, fun _ => ⟨rfl, rfl, rfl, rfl⟩, ?_⟩
  · intro o ho
    simp [initialEngineState] at ho
  · intro hcon
    simp [initialEngineState] at hcon

lemma engineInv_ensureContext {s : EngineState} (h : EngineInv s) :
    EngineInv (ensureContext s) := by
  obtain ⟨h1, h2, h3, h4, h5⟩ := h
  rw [ensureContext]
  split
  · exact ⟨h1, h2, h3, h4, h5⟩
  · exact ⟨h1, h2, h3, h4, fun _ => by simp⟩

lemma engineInv_setVolume {s : EngineState} (v : ℚ) (h : EngineInv s) :
    EngineInv (setVolume v s) := by
  obtain ⟨h1, h2, h3, h4, h5⟩ := h
  rw [setVolume]
  dsimp only
  split
  · exact ⟨h1, h2, h3, h4, fun _ => by simp⟩
  · next hm => exact ⟨h1, h2, h3, h4, fun hcon => absurd (h5 hcon) (by simp [hm])⟩

lemma engineInv_setDialPreset {s : EngineState} (p : Preset) (h : EngineInv s) :
    EngineInv (setDialPreset p s) := by
  obtain ⟨h1, h2, h3, h4, h5⟩ := h
  exact ⟨h1, h2, h3, h4, h5⟩

lemma stopTone_clean {s : EngineState} (h : EngineInv s) :
    (stopTone s).isStarted = false ∧ (stopTone s).currentKey = none ∧
    (stopTone s).cadenceTimeoutId = none ∧ (stopTone s).oscA = none ∧
    (stopTone s).oscB = none ∧ (stopTone s).toneGain = none ∧
    (stopTone s).aliveOscs = [] := by
  obtain ⟨h1, h2, h3, h4, -⟩ := h
  cases hs : s.isStarted
  · rw [stopTone_not_started hs]
    obtain ⟨ha, hb, hg, hal⟩ := h4 hs
    exact ⟨hs, h1 hs, h2 (h1 hs), ha, hb, hg, hal⟩
  · obtain ⟨hp, ha, hb, hg, hk, halive⟩ := stopTone_started_fields hs
    refine ⟨stopTone_isStarted s, hk, hp, ha, hb, hg, ?_⟩
    rw [List.eq_nil_iff_forall_not_mem]
    intro o ho
    have hmem : o ∈ s.aliveOscs := by
      revert ho
      rw [stopTone, if_neg (by simp [hs])]
      dsimp only
      intro ho
      rcases hA : s.oscA with _ | ida <;> rcases hB : s.oscB with _ | idb <;>
        rw [hA, hB] at ho <;> dsimp only at ho <;>
        first
        | exact ho
        | (simp only [List.mem_filter] at ho; tauto)
    obtain ⟨hid1, hid2⟩ := halive o ho
    rcases (h3 o hmem).2 with hcase | hcase
    · exact hid1 hcase
    · exact hid2 hcase

lemma engineInv_stopTone {s : EngineState} (h : EngineInv s) :
    EngineInv (stopTone s) := by
  obtain ⟨hs, hk, hp, ha, hb, hg, hal⟩ := stopTone_clean h
  refine ⟨fun _ => hk, fun _ => hp, ?_, fun _ => ⟨ha, hb, hg, hal⟩, ?_⟩
  · intro o ho
    rw [hal] at ho
    simp at ho
  · rw [stopTone_contextCreated, stopTone_masterGain]
    exact h.2.2.2.2

lemma engineInv_toggle_of {t : EngineState} (onMs offMs : Nat) (isOn : Bool)
    (h : EngineInv t) (hck : t.currentKey ≠ none) :
    EngineInv (cadenceToggle onMs offMs isOn t) := by
  rw [cadenceToggle]
  split
  · exact h
  · next hguard =>
    obtain ⟨g1, g2, g3, g4, g5⟩ := h
    rw [not_or] at hguard
    refine ⟨g1, fun hck' => absurd hck' hck, g3, ?_, g5⟩
    intro hs
    exact absurd (g4 hs).2.2.1 hguard.2

lemma engineInv_connectTone {s2 : EngineState} (key : Char) (spec : ToneSpec)
    (hal : s2.aliveOscs = [])
    (h5 : s2.contextCreated = true → s2.masterGain ≠ none) :
    EngineInv (connectTone key spec s2) := by
  rw [connectTone]
  dsimp only
  rcases hb : spec.b with _ | fb <;> rcases hcad : spec.cadence with _ | c <;> dsimp only
  all_goals try apply engineInv_toggle_of
  all_goals
    first
    | exact fun hck => by simp at hck
    | (refine ⟨fun hs => by simp at hs, fun hck => by simp at hck, ?_,
              fun hs => by simp at hs, h5⟩
       intro o ho
       simp only [hal, List.nil_append, List.mem_cons, List.not_mem_nil,
                  or_false, List.mem_singleton] at ho
       rcases ho with rfl | rfl <;> simp)

lemma engineInv_startToneForKey {s : EngineState} (k : Char) (h : EngineInv s) :
    EngineInv (startToneForKey k s) := by
  rw [startToneForKey]
  rcases hspec : getFrequenciesForKey s.dialPreset k with _ | spec
  · exact h
  · dsimp only
    split
    · exact engineInv_ensureContext h
    · have h1 := engineInv_ensureContext h
      obtain ⟨-, -, -, -, -, -, hal⟩ := stopTone_clean h1
      exact engineInv_connectTone k spec hal (engineInv_stopTone h1).2.2.2.2

lemma engineInv_fireCadence {s : EngineState} (h : EngineInv s) :
    EngineInv (fireCadence s) := by
  rw [fireCadence]
  rcases hp : s.cadenceTimeoutId with _ | p
  · exact h
  · dsimp only
    refine engineInv_toggle_of p.onMs p.offMs p.isOn h ?_
    intro hck
    rw [h.2.1 hck] at hp
    exact Option.noConfusion hp

/-- The states of the engine reachable from the constructor state through
the operations of the source: lazy context creation, volume and preset
updates, tone starts and stops, and cadence-timer firings. -/
inductive Reachable : EngineState → Prop where
  | init : Reachable initialEngineState
  | ensure {s : EngineState} : Reachable s → Reachable (ensureContext s)
  | vol {s : EngineState} (v : ℚ) : Reachable s → Reachable (setVolume v s)
  | preset {s : EngineState} (p : Preset) : Reachable s → Reachable (setDialPreset p s)
  | start {s : EngineState} (k : Char) : Reachable s → Reachable (startToneForKey k s)
  | stop {s : EngineState} : Reachable s → Reachable (stopTone s)
  | cadence {s : EngineState} : Reachable s → Reachable (fireCadence s)

/-- C3: every reachable engine state satisfies the invariant chain
`isStarted = false → currentKey = none → cadenceTimeoutId = none`; at most
one tone's oscillators are ever alive (all alive oscillators share one
generation); and whenever the lookup succeeds, `startToneForKey` is exactly
the teardown of the previous tone (`stopTone`, run synchronously after
`ensureContext`) followed by the allocation of the new tone
(`connectTone`). -/
theorem engine_invariant_reachable {s : EngineState} (h : Reachable s) :
    EngineInv s ∧
    (∀ o1 ∈ s.aliveOscs, ∀ o2 ∈ s.aliveOscs, o1.tone = o2.tone) ∧
    (∀ (k : Char) (spec : ToneSpec),
       getFrequenciesForKey s.dialPreset k = some spec →
       startToneForKey k s = connectTone k spec (stopTone (ensureContext s))) := by
  have hinv : EngineInv s := by
    induction h with
    | init => exact engineInv_initial
    | ensure _ ih => exact engineInv_ensureContext ih
    | vol v _ ih => exact engineInv_setVolume v ih
    | preset p _ ih => exact engineInv_setDialPreset p ih
    | start k _ ih => exact engineInv_startToneForKey k ih
    | stop _ ih => exact engineInv_stopTone ih
    | cadence _ ih => exact engineInv_fireCadence ih
  refine ⟨hinv, ?_, ?_⟩
  · intro o1 h1 o2 h2
    rw [(hinv.2.2.1 o1 h1).1, (hinv.2.2.1 o2 h2).1]
  · intro k spec hspec
    rw [startToneForKey, hspec]
    dsimp only
    rw [if_neg]
    rw [not_or]
    exact ⟨by rw [ensureContext_contextCreated]; simp,
           ensureContext_masterGain hinv.2.2.2.2⟩

/-- C3 witness: the state reached by starting key `'1'` on the fresh engine
and then stopping satisfies the invariant, the one-tone property and the
teardown-first equation. -/
theorem engine_invariant_reachable_witness :
    EngineInv (stopTone (startToneForKey '1' initialEngineState)) ∧
    (∀ o1 ∈ (stopTone (startToneForKey '1' initialEngineState)).aliveOscs,
       ∀ o2 ∈ (stopTone (startToneForKey '1' initialEngineState)).aliveOscs,
       o1.tone = o2.tone) ∧
    (∀ (k : Char) (spec : ToneSpec),
       getFrequenciesForKey
           (stopTone (startToneForKey '1' initialEngineState)).dialPreset k =
         some spec →
       startToneForKey k (stopTone (startToneForKey '1' initialEngineState)) =
         connectTone k spec
           (stopTone (ensureContext
             (stopTone (startToneForKey '1' initialEngineState))))) :=
  engine_invariant_reachable (Reachable.stop (Reachable.start '1' Reachable.init))
